import Mathlib

set_option maxRecDepth 8000

/-!
Shallow embedding of the xv6 console line discipline (kernel/console.c of
CmndHistoryXV6): the ring-buffered edit region, the saved-command stack and
its navigation state machine, the commit path of consoleintr, consoleread,
and the panicked/consputc fatal-halt path, together with theorems checking
the specification's claims against these definitions.

Conventions of the embedding:
* The three buffer cursors input.r, input.w, input.e are C uint (32-bit
  unsigned) counters.  They are modelled as unbounded naturals: every
  observable use in the source is an index modulo 128 or a comparison of a
  difference, and since 128 divides 2^32 and the differences involved stay
  far below 2^32 on the states the kernel reaches, the unbounded model and
  the wrapping model agree there.
* Bytes are naturals below 256; storing an int into a char cell truncates
  with % 256 as on the source architecture.
* Echo is modelled as the list of codes passed to consputc, in order
  (BACKSPACE = 0x100 is such a code).
-/

namespace XV6

/-- INPUT_BUF of console.c: capacity of the circular input buffer. -/
def INPUT_BUF : Nat := 128

/-- SAVED_MAX of console.c: depth of the saved-command stack. -/
def SAVED_MAX : Nat := 3

/-- BACKSPACE of console.c: the out-of-band destructive-backspace code. -/
def BACKSPACE : Nat := 0x100

/-- KEY_UP of console.c: raw arrow-up scan code. -/
def KEY_UP : Nat := 0xE2

/-- KEY_DN of console.c: raw arrow-down scan code. -/
def KEY_DN : Nat := 0xE3

/-- The C macro C(x) = x - 64 (Control-x). -/
def ctrlK (x : Nat) : Nat := x - 64

/-- The C macro S(x) = x + 64 (shift, applied to KEY_UP / KEY_DN). -/
def shiftK (x : Nat) : Nat := x + 64

/-- struct input of console.c: the circular buffer and its cursors
r (read), w (write, i.e. committed), e (edit). -/
structure Input where
  buf : Fin 128 → Nat
  r : Nat
  w : Nat
  e : Nat

/-- The console state touched by the line discipline: struct input plus
the history globals command_stack, command_ptr and saved of console.c. -/
structure Console where
  input : Input
  command_stack : Fin 3 → Fin 128 → Nat
  command_ptr : Int
  saved : Nat

/-- input.buf[i % INPUT_BUF], reading. -/
def bufAt (buf : Fin 128 → Nat) (i : Nat) : Nat :=
  buf ⟨i % 128, Nat.mod_lt i (by omega)⟩

/-- input.buf[i % INPUT_BUF] = v, writing. -/
def bufSet (buf : Fin 128 → Nat) (i : Nat) (v : Nat) : Fin 128 → Nat :=
  fun j => if j.val = i % 128 then v else buf j

/-- moveCommandsUp of console.c: shift saved commands down one slot
(slot 0 into slot 1, slot 1 into slot 2, old slot 2 discarded).  The C
loop runs i = 2 then i = 1, so each source slot is read before it is
overwritten; the functional form below is exactly that result. -/
def moveCommandsUp (st : Fin 3 → Fin 128 → Nat) : Fin 3 → Fin 128 → Nat :=
  fun i =>
    if i.val = 0 then st i
    else st ⟨i.val - 1, by have := i.isLt; omega⟩

/-- The while loop of copyCommand in console.c: walk the input buffer from
index bp (started at input.w) until it reaches e (input.e) or 128 bytes
were copied, storing each byte into the fresh slot with newline mapped to
NUL.  The loop bound ptr < INPUT_BUF is carried as the structurally
decreasing fuel = 128 - ptr (128 at the call, where ptr = 0), and the
write command_stack[0][ptr++] = .. is bufSet, whose index reduction
modulo 128 is the identity while ptr < 128.  (In C, buffer_ptr is an int
initialised from the uint input.w; on the counter values considered here
the two agree.) -/
def copyLoop (buf : Fin 128 → Nat) (e : Nat) :
    Nat → Nat → Nat → (Fin 128 → Nat) → Fin 128 → Nat
  | 0, _bp, _ptr, line => line
  | fuel + 1, bp, ptr, line =>
    if bp ≠ e then
      let ch := bufAt buf bp
      copyLoop buf e fuel (bp + 1) (ptr + 1)
        (bufSet line ptr (if ch ≠ 10 then ch else 0))
    else line

/-- copyCommand of console.c: shift the stack up, memset slot 0 to NUL,
then copy the line between input.w and input.e into slot 0. -/
def copyCommand (cs : Console) : Console :=
  let st := moveCommandsUp cs.command_stack
  let entry := copyLoop cs.input.buf cs.input.e 128 cs.input.w 0 (fun _ => 0)
  { cs with command_stack := fun i => if i.val = 0 then entry else st i }

/-- The while loop of clearCommandLine in console.c: while the edit region
is non-empty and the byte before input.e is not a newline, decrement
input.e and echo a destructive BACKSPACE.  The C index (input.e-1) %
INPUT_BUF is computed on uint, so at e = 0 it reads slot 127; (e + 127) %
128 is that same value for every e.  The uint decrement e-- would wrap
below zero at e = 0; that point is unreachable while w ≤ e holds (the
kernel invariant), and the model stops there. -/
def clearLoop (buf : Fin 128 → Nat) (w : Nat) : Nat → Nat × List Nat
  | 0 => (0, [])
  | e1 + 1 =>
    if e1 + 1 ≠ w ∧ bufAt buf (e1 + 1 + 127) ≠ 10 then
      let p := clearLoop buf w e1
      (p.1, BACKSPACE :: p.2)
    else (e1 + 1, [])

/-- clearCommandLine of console.c. -/
def clearCommandLine (cs : Console) : Console × List Nat :=
  let p := clearLoop cs.input.buf cs.input.w cs.input.e
  ({ cs with input := { cs.input with e := p.1 } }, p.2)

/-- The for loop of writeCommand in console.c: for i = 0..127, read the
saved command byte; break at a newline byte; otherwise append it at
input.e (modulo 128), advance input.e and echo it.  The loop bound
i < INPUT_BUF is carried as the structurally decreasing fuel = 128 - i
(128 at the call, where i = 0); the read command_stack[command_ptr][i]
is bufAt, whose index reduction modulo 128 is the identity while
i < 128.  (Saved commands are built by copyCommand, which stores NUL,
not newline, where the newline was.) -/
def writeLoop (entry : Fin 128 → Nat) :
    Nat → Nat → (Fin 128 → Nat) → Nat → List Nat →
      (Fin 128 → Nat) × Nat × List Nat
  | 0, _i, buf, e, out => (buf, e, out)
  | fuel + 1, i, buf, e, out =>
    let c := bufAt entry i
    if c = 10 then (buf, e, out)
    else writeLoop entry fuel (i + 1) (bufSet buf e c) (e + 1) (out ++ [c])

/-- writeCommand of console.c: erase the uncommitted line, then append
command_stack[command_ptr] byte by byte, echoing each byte.  The
history_color flag toggled around the loop only selects the CGA colour
attribute and is not part of this state.  The C code indexes the stack
with the int command_ptr, which is 0, 1 or 2 at every call site; the
model reads slot command_ptr.toNat % 3. -/
def writeCommand (cs : Console) : Console × List Nat :=
  let p := clearCommandLine cs
  let cs1 := p.1
  let entry := cs1.command_stack ⟨cs1.command_ptr.toNat % 3, by omega⟩
  let q := writeLoop entry 128 0 cs1.input.buf cs1.input.e []
  ({ cs1 with input := { cs1.input with buf := q.1, e := q.2.1 } },
   p.2 ++ q.2.2)

/-- moveThroughCommandHistory of console.c. -/
def moveThroughCommandHistory (upOrDown : Nat) (cs : Console) :
    Console × List Nat :=
  if cs.command_ptr = -1 then
    if upOrDown = shiftK KEY_UP then
      if cs.saved ≥ 1 then
        writeCommand { cs with command_ptr := 0 }
      else (cs, [])
    else (cs, [])
  else
    if upOrDown = shiftK KEY_UP then
      if cs.command_ptr + 1 < (cs.saved : Int) then
        let q := writeCommand { cs with command_ptr := cs.command_ptr + 1 }
        (if q.1.command_ptr = (SAVED_MAX : Int) then
          { q.1 with command_ptr := (SAVED_MAX : Int) - 1 }
         else q.1, q.2)
      else (cs, [])
    else
      if upOrDown = shiftK KEY_DN then
        if cs.command_ptr > 0 then
          writeCommand { cs with command_ptr := cs.command_ptr - 1 }
        else
          let p := clearCommandLine cs
          ({ p.1 with command_ptr := -1 }, p.2)
      else (cs, [])

/-- The default case of the switch in consoleintr of console.c: accept a
byte if it is non-NUL and the buffer is not full (the fullness test
input.e - input.r < INPUT_BUF is uint subtraction in C and agrees with
natural subtraction whenever r ≤ e), translating carriage return to
newline, appending, resetting command_ptr, echoing, and committing on a
newline, the EOF sentinel C('D'), or the buffer having just become full. -/
def handleDefault (c : Nat) (cs : Console) : Console × List Nat :=
  if c ≠ 0 ∧ cs.input.e - cs.input.r < INPUT_BUF then
    let c1 := if c = 13 then 10 else c
    let buf1 := bufSet cs.input.buf cs.input.e (c1 % 256)
    let e1 := cs.input.e + 1
    let cs1 : Console :=
      { cs with
          input := { cs.input with buf := buf1, e := e1 },
          command_ptr := -1 }
    if c1 = 10 ∨ c1 = ctrlK 68 ∨ e1 = cs.input.r + INPUT_BUF then
      let cs2 :=
        if e1 ≠ cs.input.w + 1 then
          let cs' := copyCommand cs1
          { cs' with
              saved := if cs'.saved < SAVED_MAX then cs'.saved + 1
                       else cs'.saved }
        else cs1
      ({ cs2 with input := { cs2.input with w := e1 } }, [c1])
    else (cs1, [c1])
  else (cs, [])

/-- One iteration of the switch in consoleintr of console.c for key code
c (the loop guard makes c ≥ 0, so a natural).  Returns the new state, the
echo codes passed to consputc, and whether the deferred procdump was
requested.  In the backspace case the uint decrement input.e-- is modelled
as natural subtraction; e = 0 with e ≠ w, where the uint would wrap, is
unreachable while w ≤ e holds. -/
def handleKey (c : Nat) (cs : Console) : Console × List Nat × Bool :=
  if c = ctrlK 80 then
    (cs, [], true)
  else if c = ctrlK 85 then
    let p := clearCommandLine cs
    (p.1, p.2, false)
  else if c = ctrlK 72 ∨ c = 127 then
    if cs.input.e ≠ cs.input.w then
      ({ cs with
          input := { cs.input with e := cs.input.e - 1 },
          command_ptr := -1 },
       [BACKSPACE], false)
    else (cs, [], false)
  else if c = shiftK KEY_UP ∨ c = shiftK KEY_DN then
    let p := moveThroughCommandHistory c cs
    (p.1, p.2, false)
  else
    let p := handleDefault c cs
    (p.1, p.2, false)

/-- consoleintr of console.c, draining a list of key codes (the C loop
while((c = getc()) >= 0), with getc returning the list elements in turn).
Accumulates the echo codes and whether a procdump was requested. -/
def consoleintr : Console → List Nat → Console × List Nat × Bool
  | cs, [] => (cs, [], false)
  | cs, c :: rest =>
    let p := handleKey c cs
    let q := consoleintr p.1 rest
    (q.1, p.2.1 ++ q.2.1, p.2.2 || q.2.2)

/-- The boot-time console state: the C globals are zero-initialised, and
command_ptr is initialised to -1 in console.c. -/
def initConsole : Console :=
  { input := { buf := fun _ => 0, r := 0, w := 0, e := 0 },
    command_stack := fun _ _ => 0,
    command_ptr := -1,
    saved := 0 }

/-- The state reached from boot after consoleintr drains the key list. -/
def runK (ks : List Nat) : Console := (consoleintr initConsole ks).1

/-- The echo codes produced while draining ks from boot. -/
def runKEcho (ks : List Nat) : List Nat := (consoleintr initConsole ks).2.1

/-- Outcome of one consoleread call of console.c: either the call returns
(final read cursor, bytes copied to dst, C return value), or it reaches
sleep() with the buffer drained and the process not killed (the call
blocks; the cursor and the bytes copied so far are recorded). -/
inductive ReadResult where
  | ret (r : Nat) (out : List Nat) (retval : Int)
  | sleeps (r : Nat) (out : List Nat)
deriving DecidableEq

/-- The while(n > 0) loop of consoleread in console.c.  killed models
myproc()->killed, held fixed across the call; target is the initial n.
A byte is taken with input.buf[input.r++ % INPUT_BUF]; the EOF sentinel
C('D') = 4 is consumed when n == target and pushed back (input.r--)
otherwise, so that the next call sees it first. -/
def readLoop (buf : Fin 128 → Nat) (w : Nat) (killed : Bool) (target : Nat) :
    Nat → Nat → List Nat → ReadResult
  | 0, r, acc => .ret r acc ((target : Int) - 0)
  | n + 1, r, acc =>
    if r = w then
      if killed then .ret r acc (-1) else .sleeps r acc
    else
      let c := bufAt buf r
      if c = ctrlK 68 then
        if (n + 1 : Nat) < target then .ret r acc ((target : Int) - (n + 1))
        else .ret (r + 1) acc ((target : Int) - (n + 1))
      else
        if c = 10 then .ret (r + 1) (acc ++ [c]) ((target : Int) - n)
        else readLoop buf w killed target n (r + 1) (acc ++ [c])

/-- consoleread of console.c on buffer state inp, reading up to n bytes
(n > 0 in every actual call; target = n). -/
def consoleread (inp : Input) (killed : Bool) (n : Nat) : ReadResult :=
  readLoop inp.buf inp.w killed n n inp.r []

/-- Result of one consputc call of console.c: either it emits (the byte
sequence sent to the uart, and the code handed to cgaputc), or panicked
was already set and the call disables interrupts (cli) and spins forever,
emitting nothing. -/
inductive ConsputcResult where
  | halt
  | emits (uart : List Nat) (cga : Nat)
deriving DecidableEq

/-- consputc of console.c as a function of the panicked flag: BACKSPACE
goes to the uart as backspace, space, backspace; any other code goes
verbatim; the same code is always handed on to cgaputc. -/
def consputc (panicked : Bool) (c : Nat) : ConsputcResult :=
  if panicked then .halt
  else .emits (if c = BACKSPACE then [8, 32, 8] else [c]) c

/-- Whether a consputc call froze the CPU instead of emitting. -/
def isHalt : ConsputcResult → Bool
  | .halt => true
  | .emits _ _ => false

/-- The console.c operations, viewed as writers/readers of the panicked
flag.  Only panic (console.c line 120) ever assigns the flag, setting it
to 1; consoleintr, consoleread, consolewrite and consputc never write it. -/
inductive ConsoleOp where
  | intr (keys : List Nat)
  | read (n : Nat) (killed : Bool)
  | write (bytes : List Nat)
  | putc (c : Nat)
  | panicCall

/-- Effect of each console.c operation on the panicked flag. -/
def panickedAfter (p : Bool) : ConsoleOp → Bool
  | .panicCall => true
  | _ => p

/-- The history-navigator domain invariant stated by the spec: command_ptr
lies in the set made of -1 and 0 .. saved-1, and saved never exceeds
SAVED_MAX. -/
def Inv (cs : Console) : Prop :=
  -1 ≤ cs.command_ptr ∧ cs.command_ptr < (cs.saved : Int)
    ∧ cs.saved ≤ SAVED_MAX

/-- No newline byte sits in the uncommitted region between w and e: every
byte there was appended either by handleDefault, which commits (w := e)
in the very step that stores a newline, or by writeCommand from a saved
command, and saved commands never contain a newline byte. -/
def NoNewlinePending (cs : Console) : Prop :=
  ∀ k, cs.input.w ≤ k → k < cs.input.e → bufAt cs.input.buf k ≠ 10

/-- The history entry the C4 claim predicts for the committed line
consisting of h, i and the EOF sentinel: a copy of the line from
committed-write to edit excluding the terminator, NUL-padded to the slot
size (this is the shape newline-terminated commits store). -/
def claimedEntryHI : Fin 128 → Nat :=
  fun j => if j.val = 0 then 104 else if j.val = 1 then 105 else 0

/-- A console whose edit region is exactly full (edit - read = 128),
reachable by typing 128 printable bytes from boot. -/
def fullConsole : Console :=
  { input := { buf := fun _ => 97, r := 0, w := 128, e := 128 },
    command_stack := fun _ _ => 0,
    command_ptr := -1,
    saved := 1 }

/-- A console with all-zero buffers and the given cursors, used to
instantiate general theorems at concrete states. -/
def mkConsole (r w e : Nat) (ptr : Int) (saved : Nat) : Console :=
  { input := { buf := fun _ => 0, r := r, w := w, e := e },
    command_stack := fun _ _ => 0,
    command_ptr := ptr,
    saved := saved }

end XV6

namespace XV6

/-- C10: a NUL key code (0) delivered to the key handler is silently
dropped in every state, full buffer or not: the state is unchanged (no
byte appended, edit not advanced, navigator cursor untouched), no echo is
produced, and no procdump is requested. -/
theorem C10_nul_byte_dropped : ∀ cs : Console, handleKey 0 cs = (cs, [], false) :=
  fun _ => rfl

/-- C7: a printable/default byte (not one of the control or arrow codes)
arriving when the buffer is full (edit = read + 128) leaves the whole
console state unchanged and produces no echo and no procdump request. -/
theorem C7_full_buffer_byte_dropped (c : Nat) (cs : Console)
    (h1 : c ≠ ctrlK 80) (h2 : c ≠ ctrlK 85)
    (h3 : ¬(c = ctrlK 72 ∨ c = 127))
    (h4 : ¬(c = shiftK KEY_UP ∨ c = shiftK KEY_DN))
    (h5 : cs.input.e = cs.input.r + INPUT_BUF) :
    handleKey c cs = (cs, [], false) := by
  have hne : ¬(c ≠ 0 ∧ cs.input.e - cs.input.r < INPUT_BUF) := by
    rintro ⟨-, hlt⟩
    rw [h5] at hlt
    simp only [INPUT_BUF] at hlt
    omega
  unfold handleKey handleDefault
  rw [if_neg h1, if_neg h2, if_neg h3, if_neg h4, if_neg hne]

/-- Witness for C7 at a concrete full console and the byte b = 98. -/
theorem C7_full_buffer_byte_dropped_witness :
    handleKey 98 fullConsole = (fullConsole, [], false) :=
  C7_full_buffer_byte_dropped 98 fullConsole (by decide) (by decide)
    (by decide) (by decide) rfl

/-- C9: the panicked flag set by panic makes every later consputc call
freeze (cli and spin) without anything reaching the uart or CGA sinks;
with the flag clear consputc never freezes; panic is the only operation
writing the flag, it writes true, and no operation ever resets it. -/
theorem C9_panicked_freezes_output :
    (∀ c, consputc true c = ConsputcResult.halt)
    ∧ (∀ c, isHalt (consputc false c) = false)
    ∧ (∀ p, panickedAfter p ConsoleOp.panicCall = true)
    ∧ (∀ op, panickedAfter true op = true) := by
  refine ⟨fun c => rfl, fun c => rfl, fun p => rfl, fun op => ?_⟩
  cases op <;> rfl

/-- C1 fails on the code: from boot, typing a then newline commits a line
and leaves edit - read = 2 ≤ 128, but a single history-up (S(KEY_UP) =
0x122 = 290) then runs writeCommand, which appends all 128 bytes of the
saved slot (its break tests for a newline byte, yet copyCommand stores
NUL where the newline was), leaving edit - read = 130 > 128. -/
theorem C1_recall_breaks_capacity_invariant :
    (runK [97, 10]).input.e = 2 ∧ (runK [97, 10]).input.r = 0
    ∧ (runK [97, 10, 290]).input.e = 130
    ∧ (runK [97, 10, 290]).input.r = 0 := by
  refine ⟨by decide, by decide, by decide, by decide⟩

/-- C3 fails on the code: from boot, committing the line h i newline and
pressing history-up leaves committed-write at 3 but moves edit to 131:
writeCommand appended all 128 bytes of the saved slot (h, i and 126 NUL
bytes), echoing 128 codes for the recall instead of the 2 characters of
the stored line; 131 echo codes arise in total for the four keys. -/
theorem C3_recall_appends_whole_slot :
    (runK [104, 105, 10, 290]).input.w = 3
    ∧ (runK [104, 105, 10, 290]).input.e = 131
    ∧ (runKEcho [104, 105, 10, 290]).length = 131 := by
  refine ⟨by decide, by decide, by decide⟩

/-- Counterexample to C6 as stated: from boot, commit the line a, press
history-up (command_ptr becomes 0), then kill-line (C('U') = 21).  The
kill-line erase is a direct edit, yet command_ptr stays 0, not -1: the
C('U') case of consoleintr calls clearCommandLine without resetting the
cursor. -/
theorem C6_counterexample_kill_line_keeps_cursor :
    (runK [97, 10, 290, 21]).command_ptr = 0
    ∧ (runK [97, 10, 290, 21]).command_ptr ≠ -1 := by
  refine ⟨by decide, by decide⟩

/-- Counterexample to C4 as stated: from boot, the keys h, i, C('D')
commit the line whose text excluding the terminator is the two bytes h i,
so the claim predicts the pushed entry claimedEntryHI (NUL from index 2
on).  The code instead copies the terminator byte too: slot 0 holds the
EOF sentinel C('D') = 4 at index 2, so the pushed entry is not a copy of
the line excluding the terminator. -/
theorem C4_counterexample_sentinel_pushed :
    (runK [104, 105, 4]).command_stack 0 ⟨2, by omega⟩ = ctrlK 68
    ∧ (runK [104, 105, 4]).command_stack 0 ≠ claimedEntryHI := by
  constructor
  · decide
  · intro h
    have h2 := congrFun h ⟨2, by omega⟩
    have h3 : claimedEntryHI ⟨2, by omega⟩ = 0 := by decide
    have h4 : (runK [104, 105, 4]).command_stack 0 ⟨2, by omega⟩ = 4 := by
      decide
    rw [h3, h4] at h2
    exact absurd h2 (by decide)

/-- Counterexample to C5 as stated: from boot, 128 printable bytes fill
the buffer, which commits a 128-byte line with no terminator.  A killed
process calling consoleread with n = 129 consumes all 128 bytes, only
then finds the buffer empty, and returns -1 - so the call does return
the failure result while waiting, but it has consumed input and advanced
the read cursor from 0 to 128 during the call. -/
theorem C5_counterexample_killed_after_consuming :
    consoleread (runK (List.replicate 128 97)).input true 129
      = ReadResult.ret 128 (List.replicate 128 97) (-1)
    ∧ (runK (List.replicate 128 97)).input.r = 0 := by
  refine ⟨by decide, by decide⟩

theorem bufAt_congr (buf : Fin 128 → Nat) (i j : Nat)
    (h : i % 128 = j % 128) : bufAt buf i = bufAt buf j := by
  unfold bufAt
  congr 1
  exact Fin.ext h

theorem bufAt_bufSet_same (buf : Fin 128 → Nat) (i v : Nat) :
    bufAt (bufSet buf i v) i = v := by
  unfold bufAt bufSet
  simp

theorem bufAt_bufSet_ne (buf : Fin 128 → Nat) (i v k : Nat)
    (h : k % 128 ≠ i % 128) : bufAt (bufSet buf i v) k = bufAt buf k := by
  unfold bufAt bufSet
  simp [h]

theorem copyCommand_input (cs : Console) :
    (copyCommand cs).input = cs.input := rfl

theorem copyCommand_cptr (cs : Console) :
    (copyCommand cs).command_ptr = cs.command_ptr := rfl

theorem copyCommand_saved (cs : Console) :
    (copyCommand cs).saved = cs.saved := rfl

theorem clearCommandLine_cptr (cs : Console) :
    (clearCommandLine cs).1.command_ptr = cs.command_ptr := rfl

theorem clearCommandLine_saved (cs : Console) :
    (clearCommandLine cs).1.saved = cs.saved := rfl

theorem clearCommandLine_w (cs : Console) :
    (clearCommandLine cs).1.input.w = cs.input.w := rfl

theorem writeCommand_cptr (cs : Console) :
    (writeCommand cs).1.command_ptr = cs.command_ptr := rfl

theorem writeCommand_saved (cs : Console) :
    (writeCommand cs).1.saved = cs.saved := rfl

/-- Bookkeeping of the consoleread loop with killed = false: whenever
the loop returns, the C return value target - n equals the number of
bytes written to dst beyond those already in acc. -/
theorem readLoop_ret_length (buf : Fin 128 → Nat) (w target : Nat) :
    ∀ (n r : Nat) (acc : List Nat) (r' : Nat) (out : List Nat) (ret : Int),
      readLoop buf w false target n r acc = ReadResult.ret r' out ret →
      ret = (target : Int) - n + out.length - acc.length := by
  intro n
  induction n with
  | zero =>
    intro r acc r' out ret h
    simp only [readLoop] at h
    cases h
    simp
  | succ m ih =>
    intro r acc r' out ret h
    simp only [readLoop] at h
    by_cases hr : r = w
    · simp [hr] at h
    · rw [if_neg hr] at h
      by_cases h4 : bufAt buf r = ctrlK 68
      · rw [if_pos h4] at h
        by_cases hlt : m + 1 < target
        · rw [if_pos hlt] at h
          cases h
          push_cast
          ring
        · rw [if_neg hlt] at h
          cases h
          push_cast
          ring
      · rw [if_neg h4] at h
        by_cases h10 : bufAt buf r = 10
        · rw [if_pos h10] at h
          cases h
          simp only [List.length_append, List.length_cons, List.length_nil]
          push_cast
          ring
        · rw [if_neg h10] at h
          have hrec := ih (r + 1) (acc ++ [bufAt buf r]) r' out ret h
          simp only [List.length_append, List.length_cons, List.length_nil]
            at hrec ⊢
          push_cast at hrec ⊢
          omega

/-- The while loop of clearCommandLine erases exactly back to w, echoing
one BACKSPACE per erased byte, whenever w ≤ e and no newline byte sits in
the region between w and e. -/
theorem clearLoop_clears (buf : Fin 128 → Nat) (w : Nat) :
    ∀ e : Nat, w ≤ e → (∀ k, w ≤ k → k < e → bufAt buf k ≠ 10) →
      clearLoop buf w e = (w, List.replicate (e - w) BACKSPACE) := by
  intro e
  induction e with
  | zero =>
    intro hw _
    have hz : w = 0 := by omega
    subst hz
    simp [clearLoop]
  | succ e1 ih =>
    intro hw hn
    by_cases hwe : w = e1 + 1
    · subst hwe
      simp [clearLoop]
    · have hle : w ≤ e1 := by omega
      have hnl : bufAt buf (e1 + 1 + 127) ≠ 10 := by
        have hcg : bufAt buf (e1 + 1 + 127) = bufAt buf e1 :=
          bufAt_congr buf (e1 + 1 + 127) e1 (by omega)
        rw [hcg]
        exact hn e1 hle (by omega)
      simp only [clearLoop]
      rw [if_pos ⟨fun hcon => hwe hcon.symm, hnl⟩,
        ih hle (fun k hk1 hk2 => hn k hk1 (by omega))]
      have hrep : e1 + 1 - w = (e1 - w) + 1 := by omega
      rw [hrep]
      rfl

/-- C2: consoleread stops at count bytes, at a consumed newline (included
in the output), or at the EOF sentinel (excluded from the output, left in
the stream when at least one byte was already produced this call, i.e.
when n < target, so that the next call consumes it alone and returns 0);
a completed read returns the number of bytes produced.  The final
conjunct is the spec's own example: after the keys h, i, C('D'), a
read of 10 yields the two bytes h i, and a follow-up read yields 0. -/
theorem C2_consoleread_stop_conditions :
    (∀ (inp : Input) (n r' : Nat) (out : List Nat) (ret : Int),
        consoleread inp false n = ReadResult.ret r' out ret →
        ret = (out.length : Int))
    ∧ (∀ (buf : Fin 128 → Nat) (w : Nat) (killed : Bool)
          (target r : Nat) (acc : List Nat),
        readLoop buf w killed target 0 r acc
          = ReadResult.ret r acc (target : Int))
    ∧ (∀ (buf : Fin 128 → Nat) (w : Nat) (killed : Bool)
          (target m r : Nat) (acc : List Nat), r ≠ w → bufAt buf r = 10 →
        readLoop buf w killed target (m + 1) r acc
          = ReadResult.ret (r + 1) (acc ++ [10]) ((target : Int) - m))
    ∧ (∀ (buf : Fin 128 → Nat) (w : Nat) (killed : Bool)
          (target m r : Nat) (acc : List Nat), r ≠ w →
        bufAt buf r = ctrlK 68 → m + 1 < target →
        readLoop buf w killed target (m + 1) r acc
          = ReadResult.ret r acc ((target : Int) - (m + 1)))
    ∧ (∀ (inp : Input) (killed : Bool) (m : Nat), inp.r ≠ inp.w →
        bufAt inp.buf inp.r = ctrlK 68 →
        consoleread inp killed (m + 1) = ReadResult.ret (inp.r + 1) [] 0)
    ∧ (consoleread (runK [104, 105, 4]).input false 10
        = ReadResult.ret 2 [104, 105] 2
      ∧ consoleread { (runK [104, 105, 4]).input with r := 2 } false 10
        = ReadResult.ret 3 [] 0) := by
  refine ⟨?_, ?_, ?_, ?_, ?_, by decide, by decide⟩
  · intro inp n r' out ret h
    have hlen := readLoop_ret_length inp.buf inp.w n n inp.r [] r' out ret h
    simpa using hlen
  · intro buf w killed target r acc
    simp [readLoop]
  · intro buf w killed target m r acc hr h10
    simp only [readLoop]
    rw [if_neg hr, if_neg (by rw [h10]; decide), if_pos h10, h10]
  · intro buf w killed target m r acc hr h4 hlt
    simp only [readLoop]
    rw [if_neg hr, if_pos h4, if_pos hlt]
  · intro inp killed m hr h4
    unfold consoleread
    simp only [readLoop]
    rw [if_neg hr, if_pos h4, if_neg (by omega)]
    have hz : ((m : Int) + 1) - ((m : Nat) + 1 : Nat) = 0 := by push_cast; ring
    norm_num

/-- Witness for C2 at concrete buffers, discharging each hypothesis. -/
theorem C2_consoleread_stop_conditions_witness :
    ((2 : Int) = (([104, 105] : List Nat).length : Int))
    ∧ (readLoop (fun _ => 10) 5 false 9 (2 + 1) 0 []
        = ReadResult.ret (0 + 1) ([] ++ [10]) ((9 : Int) - 2))
    ∧ (readLoop (fun _ => 4) 5 false 9 (2 + 1) 0 []
        = ReadResult.ret 0 [] ((9 : Int) - (2 + 1)))
    ∧ (consoleread { buf := fun _ => 4, r := 0, w := 5, e := 5 } true (3 + 1)
        = ReadResult.ret (0 + 1) [] 0) := by
  refine ⟨?_, ?_, ?_, ?_⟩
  · exact C2_consoleread_stop_conditions.1 (runK [104, 105, 4]).input 10 2
      [104, 105] 2 (by decide)
  · exact C2_consoleread_stop_conditions.2.2.1 (fun _ => 10) 5 false 9 2 0 []
      (by decide) (by decide)
  · exact C2_consoleread_stop_conditions.2.2.2.1 (fun _ => 4) 5 false 9 2 0 []
      (by decide) (by decide) (by decide)
  · exact C2_consoleread_stop_conditions.2.2.2.2.1
      { buf := fun _ => 4, r := 0, w := 5, e := 5 } true 3 (by decide)
      (by decide)

/-- C5 amended: when consoleread finds the buffer empty (read =
committed-write) with the process marked killed, it returns -1 at once,
with the read cursor unchanged from that point on; in particular a call
that blocks before consuming anything consumes nothing at all.  (Bytes
consumed earlier in the same call, before the buffer drained, stay
consumed - see the counterexample.) -/
theorem C5_killed_wait_returns_failure :
    (∀ (buf : Fin 128 → Nat) (w target n r : Nat) (acc : List Nat), r = w →
        readLoop buf w true target (n + 1) r acc
          = ReadResult.ret r acc (-1))
    ∧ (∀ (inp : Input) (n : Nat), inp.r = inp.w → 0 < n →
        consoleread inp true n = ReadResult.ret inp.r [] (-1)) := by
  constructor
  · intro buf w target n r acc hr
    simp [readLoop, hr]
  · intro inp n hr hn
    obtain ⟨m, rfl⟩ : ∃ m, n = m + 1 := ⟨n - 1, by omega⟩
    unfold consoleread
    simp [readLoop, hr]

/-- Witness for C5 amended at a concrete empty buffer. -/
theorem C5_killed_wait_returns_failure_witness :
    readLoop (fun _ => 0) 3 true 7 (4 + 1) 3 [9]
      = ReadResult.ret 3 [9] (-1)
    ∧ consoleread { buf := fun _ => 0, r := 3, w := 3, e := 3 } true 5
      = ReadResult.ret 3 [] (-1) :=
  ⟨C5_killed_wait_returns_failure.1 (fun _ => 0) 3 7 4 3 [9] rfl,
   C5_killed_wait_returns_failure.2
     { buf := fun _ => 0, r := 3, w := 3, e := 3 } 5 rfl (by decide)⟩

theorem Console_upd_cptr (cs : Console) (v : Int) :
    ({ cs with command_ptr := v } : Console).command_ptr = v := rfl

theorem Console_upd_cptr_saved (cs : Console) (v : Int) :
    ({ cs with command_ptr := v } : Console).saved = cs.saved := rfl

theorem Console_upd_cptr_input (cs : Console) (v : Int) :
    ({ cs with command_ptr := v } : Console).input = cs.input := rfl

/-- C6 amended: after a character insertion accepted into the edit region
the navigator cursor is -1 and the previously displayed text is retained
(edit advances by one, every other buffer cell untouched); after a
backspace that deletes a character (edit ≠ committed-write) the cursor is
-1; a kill-line erase, however, leaves the cursor unchanged - it does not
reset it to -1, contrary to the claim as stated. -/
theorem C6_direct_edit_resets_cursor :
    (∀ (c : Nat) (cs : Console),
        c ≠ ctrlK 80 → c ≠ ctrlK 85 → ¬(c = ctrlK 72 ∨ c = 127) →
        ¬(c = shiftK KEY_UP ∨ c = shiftK KEY_DN) →
        c ≠ 0 → cs.input.e - cs.input.r < INPUT_BUF →
        (handleKey c cs).1.command_ptr = -1
        ∧ (handleKey c cs).1.input.e = cs.input.e + 1
        ∧ ∀ k : Fin 128, k.val ≠ cs.input.e % 128 →
            (handleKey c cs).1.input.buf k = cs.input.buf k)
    ∧ (∀ (c : Nat) (cs : Console), (c = ctrlK 72 ∨ c = 127) →
        cs.input.e ≠ cs.input.w →
        (handleKey c cs).1.command_ptr = -1)
    ∧ (∀ cs : Console,
        (handleKey (ctrlK 85) cs).1.command_ptr = cs.command_ptr) := by
  refine ⟨?_, ?_, ?_⟩
  · intro c cs h1 h2 h3 h4 h0 hlt
    have hk : handleKey c cs
        = ((handleDefault c cs).1, (handleDefault c cs).2, false) := by
      unfold handleKey
      rw [if_neg h1, if_neg h2, if_neg h3, if_neg h4]
    rw [hk]
    simp only [handleDefault]
    rw [if_pos ⟨h0, hlt⟩]
    by_cases hcm : (if c = 13 then 10 else c) = 10
        ∨ (if c = 13 then 10 else c) = ctrlK 68
        ∨ cs.input.e + 1 = cs.input.r + INPUT_BUF
    · rw [if_pos hcm]
      by_cases hne : cs.input.e + 1 ≠ cs.input.w + 1
      · rw [if_pos hne]
        refine ⟨rfl, rfl, ?_⟩
        intro k hk2
        show bufSet cs.input.buf cs.input.e
            ((if c = 13 then 10 else c) % 256) k = cs.input.buf k
        unfold bufSet
        rw [if_neg hk2]
      · rw [if_neg hne]
        refine ⟨rfl, rfl, ?_⟩
        intro k hk2
        show bufSet cs.input.buf cs.input.e
            ((if c = 13 then 10 else c) % 256) k = cs.input.buf k
        unfold bufSet
        rw [if_neg hk2]
    · rw [if_neg hcm]
      refine ⟨rfl, rfl, ?_⟩
      intro k hk2
      show bufSet cs.input.buf cs.input.e
          ((if c = 13 then 10 else c) % 256) k = cs.input.buf k
      unfold bufSet
      rw [if_neg hk2]
  · intro c cs hc hne
    rcases hc with rfl | rfl
    · unfold handleKey
      rw [if_neg (by decide), if_neg (by decide),
        if_pos (show ctrlK 72 = ctrlK 72 ∨ ctrlK 72 = 127 from by decide),
        if_pos hne]
    · unfold handleKey
      rw [if_neg (by decide), if_neg (by decide),
        if_pos (show (127 : Nat) = ctrlK 72 ∨ (127 : Nat) = 127 from by
          decide),
        if_pos hne]
  · intro cs
    rfl

/-- Witness for C6 amended: an accepted byte from boot, and a backspace on
a non-empty line with the cursor at 0. -/
theorem C6_direct_edit_resets_cursor_witness :
    ((handleKey 97 initConsole).1.command_ptr = -1
      ∧ (handleKey 97 initConsole).1.input.e = initConsole.input.e + 1)
    ∧ (handleKey (ctrlK 72) (mkConsole 0 0 1 0 1)).1.command_ptr = -1 := by
  refine ⟨⟨?_, ?_⟩, ?_⟩
  · exact (C6_direct_edit_resets_cursor.1 97 initConsole (by decide)
      (by decide) (by decide) (by decide) (by decide) (by decide)).1
  · exact (C6_direct_edit_resets_cursor.1 97 initConsole (by decide)
      (by decide) (by decide) (by decide) (by decide) (by decide)).2.1
  · exact C6_direct_edit_resets_cursor.2.1 (ctrlK 72) (mkConsole 0 0 1 0 1)
      (Or.inl rfl) (by decide)

/-- The navigator-cursor domain invariant is preserved by
moveThroughCommandHistory. -/
theorem moveThrough_preserves_Inv (u : Nat) (cs : Console) (h : Inv cs) :
    Inv (moveThroughCommandHistory u cs).1 := by
  obtain ⟨h1, h2, h3⟩ := h
  simp only [SAVED_MAX] at h3
  simp only [moveThroughCommandHistory]
  split_ifs with hm1 hu hs hu2 hclamp hdn hp <;>
    refine ⟨?_, ?_, ?_⟩ <;>
    simp only [writeCommand_cptr, writeCommand_saved, clearCommandLine_cptr,
      clearCommandLine_saved, Console_upd_cptr, Console_upd_cptr_saved,
      SAVED_MAX] at * <;>
    omega

/-- The navigator-cursor domain invariant is preserved by handleDefault. -/
theorem handleDefault_preserves_Inv (c : Nat) (cs : Console) (h : Inv cs) :
    Inv (handleDefault c cs).1 := by
  obtain ⟨h1, h2, h3⟩ := h
  simp only [SAVED_MAX] at h3
  simp only [handleDefault]
  split_ifs with hacc hcm hne hsv <;>
    refine ⟨?_, ?_, ?_⟩ <;>
    simp only [copyCommand_cptr, copyCommand_saved, SAVED_MAX] at * <;>
    omega

/-- C8: the navigator cursor stays in its legal domain (-1 together with
0..count-1, and count ≤ 3) across every key, and each navigation step is
exactly as claimed: up moves from k to k+1 precisely when k+1 < count and
is a full no-op at the top of the available history; down moves from
k > 0 to k-1; down at 0 erases the edit line (back to committed-write,
given the no-pending-newline reachability invariant) and returns the
cursor to -1; down at -1 is a full no-op. -/
theorem C8_navigator_state_machine :
    (∀ (c : Nat) (cs : Console), Inv cs → Inv (handleKey c cs).1)
    ∧ (∀ cs : Console, -1 ≤ cs.command_ptr → cs.saved ≤ SAVED_MAX →
        cs.command_ptr + 1 < (cs.saved : Int) →
        (moveThroughCommandHistory (shiftK KEY_UP) cs).1.command_ptr
          = cs.command_ptr + 1)
    ∧ (∀ cs : Console, -1 ≤ cs.command_ptr →
        ¬ cs.command_ptr + 1 < (cs.saved : Int) →
        moveThroughCommandHistory (shiftK KEY_UP) cs = (cs, []))
    ∧ (∀ cs : Console, 0 < cs.command_ptr →
        (moveThroughCommandHistory (shiftK KEY_DN) cs).1.command_ptr
          = cs.command_ptr - 1)
    ∧ (∀ cs : Console, cs.command_ptr = 0 →
        (moveThroughCommandHistory (shiftK KEY_DN) cs).1.command_ptr = -1
        ∧ (cs.input.w ≤ cs.input.e → NoNewlinePending cs →
            (moveThroughCommandHistory (shiftK KEY_DN) cs).1.input.e
              = cs.input.w))
    ∧ (∀ cs : Console, cs.command_ptr = -1 →
        moveThroughCommandHistory (shiftK KEY_DN) cs = (cs, [])) := by
  refine ⟨?_, ?_, ?_, ?_, ?_, ?_⟩
  · intro c cs h
    unfold handleKey
    split_ifs with hp hu hb hbe hnav
    · exact h
    · obtain ⟨h1, h2, h3⟩ := h
      exact ⟨by simpa only [clearCommandLine_cptr] using h1,
        by simpa only [clearCommandLine_cptr, clearCommandLine_saved]
          using h2,
        by simpa only [clearCommandLine_saved] using h3⟩
    · obtain ⟨h1, h2, h3⟩ := h
      refine ⟨?_, ?_, ?_⟩
      · show (-1 : Int) ≤ -1
        omega
      · show (-1 : Int) < (cs.saved : Int)
        omega
      · show cs.saved ≤ SAVED_MAX
        exact h3
    · exact h
    · exact moveThrough_preserves_Inv c cs h
    · exact handleDefault_preserves_Inv c cs h
  · intro cs hge hle hlt
    simp only [moveThroughCommandHistory]
    by_cases hm1 : cs.command_ptr = -1
    · rw [if_pos hm1, if_pos True.intro,
        if_pos (show cs.saved ≥ 1 from by rw [hm1] at hlt; omega),
        writeCommand_cptr, Console_upd_cptr, hm1]
      decide
    · rw [if_neg hm1, if_pos True.intro, if_pos hlt]
      simp only [writeCommand_cptr, Console_upd_cptr]
      rw [if_neg (show ¬ cs.command_ptr + 1 = ((SAVED_MAX : Nat) : Int)
        from by simp only [SAVED_MAX] at hle ⊢; omega)]
      simp only [writeCommand_cptr, Console_upd_cptr]
  · intro cs hge hnlt
    unfold moveThroughCommandHistory
    by_cases hm1 : cs.command_ptr = -1
    · rw [if_pos hm1, if_pos rfl,
        if_neg (show ¬ cs.saved ≥ 1 from by rw [hm1] at hnlt; omega)]
    · rw [if_neg hm1, if_pos rfl, if_neg hnlt]
  · intro cs hp
    unfold moveThroughCommandHistory
    rw [if_neg (by omega), if_neg (by decide), if_pos rfl, if_pos hp,
      writeCommand_cptr, Console_upd_cptr]
  · intro cs h0
    constructor
    · unfold moveThroughCommandHistory
      rw [if_neg (by omega), if_neg (by decide), if_pos rfl,
        if_neg (show ¬ cs.command_ptr > 0 from by omega)]
    · intro hwe hnl
      unfold moveThroughCommandHistory
      rw [if_neg (by omega), if_neg (by decide), if_pos rfl,
        if_neg (show ¬ cs.command_ptr > 0 from by omega)]
      show (clearLoop cs.input.buf cs.input.w cs.input.e).1 = cs.input.w
      rw [clearLoop_clears cs.input.buf cs.input.w cs.input.e hwe hnl]
  · intro cs hm1
    unfold moveThroughCommandHistory
    rw [if_pos hm1, if_neg (by decide)]

/-- Witness for C8 at concrete consoles for each navigation step. -/
theorem C8_navigator_state_machine_witness :
    Inv (handleKey 97 initConsole).1
    ∧ (moveThroughCommandHistory (shiftK KEY_UP)
        (mkConsole 0 0 0 (-1) 1)).1.command_ptr = -1 + 1
    ∧ moveThroughCommandHistory (shiftK KEY_UP) (mkConsole 0 0 0 0 1)
        = (mkConsole 0 0 0 0 1, [])
    ∧ (moveThroughCommandHistory (shiftK KEY_DN)
        (mkConsole 0 0 0 2 3)).1.command_ptr = 2 - 1
    ∧ ((moveThroughCommandHistory (shiftK KEY_DN)
          (mkConsole 0 0 0 0 1)).1.command_ptr = -1
        ∧ (moveThroughCommandHistory (shiftK KEY_DN)
            (mkConsole 0 0 0 0 1)).1.input.e = (mkConsole 0 0 0 0 1).input.w)
    ∧ moveThroughCommandHistory (shiftK KEY_DN) (mkConsole 0 0 0 (-1) 0)
        = (mkConsole 0 0 0 (-1) 0, []) := by
  refine ⟨?_, ?_, ?_, ?_, ⟨?_, ?_⟩, ?_⟩
  · exact C8_navigator_state_machine.1 97 initConsole
      ⟨by decide, by decide, by decide⟩
  · exact C8_navigator_state_machine.2.1 (mkConsole 0 0 0 (-1) 1)
      (by decide) (by decide) (by decide)
  · exact C8_navigator_state_machine.2.2.1 (mkConsole 0 0 0 0 1)
      (by decide) (by decide)
  · exact C8_navigator_state_machine.2.2.2.1 (mkConsole 0 0 0 2 3)
      (by decide)
  · exact (C8_navigator_state_machine.2.2.2.2.1 (mkConsole 0 0 0 0 1)
      (by decide)).1
  · exact (C8_navigator_state_machine.2.2.2.2.1 (mkConsole 0 0 0 0 1)
      (by decide)).2 (by decide)
      (by intro k hk1 hk2; simp only [mkConsole] at hk2; omega)
  · exact C8_navigator_state_machine.2.2.2.2.2 (mkConsole 0 0 0 (-1) 0)
      (by decide)

/-- Characterisation of the copyCommand loop: run on the region from bp
of length rem with write index ptr and enough fuel (ptr + fuel = 128,
rem ≤ fuel), it fills slots ptr .. ptr+rem-1 with the buffer bytes from
bp on (newline mapped to NUL) and leaves every other slot untouched. -/
theorem copyLoop_spec (buf : Fin 128 → Nat) :
    ∀ (rem fuel bp ptr : Nat) (line : Fin 128 → Nat), rem ≤ fuel →
      ptr + fuel = 128 →
      ∀ j : Fin 128,
        copyLoop buf (bp + rem) fuel bp ptr line j
          = if ptr ≤ j.val ∧ j.val < ptr + rem then
              (if bufAt buf (bp + (j.val - ptr)) = 10 then 0
               else bufAt buf (bp + (j.val - ptr)))
            else line j := by
  intro rem
  induction rem with
  | zero =>
    intro fuel bp ptr line hle hfuel j
    rw [if_neg (by omega)]
    cases fuel with
    | zero => rfl
    | succ fl =>
      simp only [copyLoop]
      rw [if_neg (show ¬ bp ≠ bp + 0 from by omega)]
  | succ rm ih =>
    intro fuel bp ptr line hle hfuel j
    obtain ⟨fl, rfl⟩ : ∃ fl, fuel = fl + 1 := ⟨fuel - 1, by omega⟩
    simp only [copyLoop]
    rw [if_pos (show bp ≠ bp + (rm + 1) from by omega)]
    rw [show bp + (rm + 1) = (bp + 1) + rm from by omega,
      ih fl (bp + 1) (ptr + 1) _ (by omega) (by omega) j]
    by_cases hj : ptr + 1 ≤ j.val ∧ j.val < ptr + 1 + rm
    · rw [if_pos hj,
        if_pos (show ptr ≤ j.val ∧ j.val < ptr + (rm + 1) from by omega),
        show bp + 1 + (j.val - (ptr + 1)) = bp + (j.val - ptr) from by omega]
    · rw [if_neg hj]
      by_cases hj0 : j.val = ptr
      · rw [if_pos (show ptr ≤ j.val ∧ j.val < ptr + (rm + 1) from by
          omega)]
        simp only [bufSet]
        rw [if_pos (show j.val = ptr % 128 from by omega),
          show bp + (j.val - ptr) = bp from by omega]
        by_cases hch : bufAt buf bp = 10
        · rw [if_pos hch, if_neg (by simp [hch])]
        · rw [if_neg hch, if_pos hch]
      · rw [if_neg (show ¬(ptr ≤ j.val ∧ j.val < ptr + (rm + 1)) from by
          omega)]
        simp only [bufSet]
        rw [if_neg (show ¬ j.val = ptr % 128 from by omega)]

/-- The copyCommand loop as called by copyCommand itself: from slot index
0 with full fuel it copies the region between w and e (at most 128 bytes
here), newline mapped to NUL, over an all-NUL slot. -/
theorem copyLoop_entry (buf : Fin 128 → Nat) (w e : Nat) (hwe : w ≤ e)
    (hlen : e - w ≤ 128) (j : Fin 128) :
    copyLoop buf e 128 w 0 (fun _ => 0) j
      = if j.val < e - w then
          (if bufAt buf (w + j.val) = 10 then 0 else bufAt buf (w + j.val))
        else 0 := by
  have h := copyLoop_spec buf (e - w) 128 w 0 (fun _ => 0) hlen (by omega) j
  rw [show w + (e - w) = e from by omega] at h
  rw [h]
  by_cases hj : j.val < e - w
  · rw [if_pos ⟨Nat.zero_le _, by omega⟩, if_pos hj,
      show j.val - 0 = j.val from by omega]
  · rw [if_neg (by omega), if_neg hj]

/-- C4 amended: on every commit (newline, EOF sentinel, or buffer just
full), committed-write advances to the new edit index; if the committed
chunk holds more than one byte (edit ≠ committed-write, i.e. the line is
not just its final byte), a copy of the whole chunk - its bytes with any
newline replaced by NUL, hence including a terminating EOF sentinel or a
final ordinary byte of a full-buffer commit verbatim - is pushed at slot
0, the existing entries shift down one slot (the entry beyond depth 3 is
discarded) and count increments capped at 3; a one-byte chunk pushes
nothing.  (The claim as stated - that the pushed copy excludes the
terminator and that any non-empty terminator-less chunk is pushed - fails
on the code; see the counterexample.) -/
theorem C4_commit_push_characterised (c : Nat) (cs : Console)
    (h1 : c ≠ ctrlK 80) (h2 : c ≠ ctrlK 85)
    (h3 : ¬(c = ctrlK 72 ∨ c = 127))
    (h4 : ¬(c = shiftK KEY_UP ∨ c = shiftK KEY_DN))
    (h0 : c ≠ 0)
    (hlt : cs.input.e - cs.input.r < INPUT_BUF)
    (hrw : cs.input.r ≤ cs.input.w) (hwe : cs.input.w ≤ cs.input.e)
    (hs : cs.saved ≤ SAVED_MAX)
    (hcm : (if c = 13 then 10 else c) = 10
      ∨ (if c = 13 then 10 else c) = ctrlK 68
      ∨ cs.input.e + 1 = cs.input.r + INPUT_BUF) :
    ((handleKey c cs).1.input.w = cs.input.e + 1)
    ∧ (cs.input.e ≠ cs.input.w →
        (handleKey c cs).1.saved = min (cs.saved + 1) SAVED_MAX
        ∧ (∀ i : Fin 3, 0 < i.val →
            (handleKey c cs).1.command_stack i
              = cs.command_stack ⟨i.val - 1, by have := i.isLt; omega⟩)
        ∧ (∀ j : Fin 128,
            (handleKey c cs).1.command_stack 0 j
              = if j.val < cs.input.e + 1 - cs.input.w then
                  (if bufAt (bufSet cs.input.buf cs.input.e
                        ((if c = 13 then 10 else c) % 256))
                      (cs.input.w + j.val) = 10
                   then 0
                   else bufAt (bufSet cs.input.buf cs.input.e
                        ((if c = 13 then 10 else c) % 256))
                      (cs.input.w + j.val))
                else 0))
    ∧ (cs.input.e = cs.input.w →
        (handleKey c cs).1.command_stack = cs.command_stack
        ∧ (handleKey c cs).1.saved = cs.saved) := by
  have hk : handleKey c cs
      = ((handleDefault c cs).1, (handleDefault c cs).2, false) := by
    unfold handleKey
    rw [if_neg h1, if_neg h2, if_neg h3, if_neg h4]
  rw [hk]
  simp only [handleDefault]
  rw [if_pos ⟨h0, hlt⟩, if_pos hcm]
  refine ⟨?_, ?_, ?_⟩
  · by_cases hne : cs.input.e + 1 ≠ cs.input.w + 1
    · rw [if_pos hne]
    · rw [if_neg hne]
  · intro hne
    rw [if_pos (show cs.input.e + 1 ≠ cs.input.w + 1 from by omega)]
    refine ⟨?_, ?_, ?_⟩
    · simp only [copyCommand_saved]
      simp only [SAVED_MAX] at hs ⊢
      split_ifs <;> omega
    · intro i hi
      simp only [copyCommand, moveCommandsUp]
      rw [if_neg (by omega), if_neg (by omega)]
    · intro j
      simp only [copyCommand]
      rw [if_pos (show (0 : Fin 3).val = 0 from rfl)]
      exact copyLoop_entry
        (bufSet cs.input.buf cs.input.e ((if c = 13 then 10 else c) % 256))
        cs.input.w (cs.input.e + 1) (by omega)
        (by simp only [INPUT_BUF] at hlt; omega) j
  · intro heq
    rw [if_neg (show ¬ cs.input.e + 1 ≠ cs.input.w + 1 from by omega)]
    exact ⟨rfl, rfl⟩

/-- Witness for C4 amended: committing h i with a newline from boot. -/
theorem C4_commit_push_characterised_witness :
    (handleKey 10 (runK [104, 105])).1.input.w = (runK [104, 105]).input.e + 1
    ∧ (handleKey 10 (runK [104, 105])).1.saved
        = min ((runK [104, 105]).saved + 1) SAVED_MAX := by
  have h := C4_commit_push_characterised 10 (runK [104, 105]) (by decide)
    (by decide) (by decide) (by decide) (by decide) (by decide) (by decide)
    (by decide) (by decide) (Or.inl (by decide))
  exact ⟨h.1, (h.2.1 (by decide)).1⟩

end XV6
